import Mathlib

/-!
Shallow embedding of the chained hash map in src/main.js.

Keys are JS strings, modelled as lists of UTF-16 character codes
(`key.charCodeAt(i)` yields the i-th element).  A bucket is the chain of
nodes hanging off one slot of the bucket array; a chain is modelled as a
list of key/value pairs in chain order (the JS `null` bucket is the empty
list).  The `size` field is a JS number used as an integer counter, so it
is modelled as `Int`; `loadFactor` and the `size / capacity` quotient are
modelled as exact rationals.

`set` and `resize` are mutually recursive in the source (`set` may call
`resize`, whose re-insertion loop calls `set` again), and nothing in the
code bounds that recursion for arbitrary load factors, so they are
embedded with an explicit fuel argument and return `none` when the fuel
runs out (or when the defensive out-of-bounds branch of `set` throws).
-/

namespace HashMapJS

/-- A JS string key: the list of its UTF-16 character codes. -/
abbrev Key := List Nat

/-- One chain of collision nodes: the `Node` linked list of the source,
in chain order, with `[]` standing for a `null` bucket. -/
abbrev Chain (α : Type) := List (Key × α)

/-- The `HashMap` object state: `loadFactor`, `capacity`, the bucket
array `buckets`, and the `size` counter (a JS number, modelled as `Int`
since `remove` decrements it without a guard). -/
structure HashMap (α : Type) where
  loadFactor : ℚ
  capacity : Nat
  buckets : List (Chain α)
  size : Int
deriving DecidableEq

/-- `new HashMap(initialSize, loadFactor)`: bucket array of
`initialSize` slots, all `null`, and `size = 0`. -/
def newHashMap (α : Type) (initialSize : Nat) (loadFactor : ℚ) : HashMap α :=
  { loadFactor := loadFactor
    capacity := initialSize
    buckets := List.replicate initialSize []
    size := 0 }

/-- `hash(key)` as a function of the capacity: starts from `hashCode = 0`
and folds `hashCode = (31 * hashCode + key.charCodeAt(i)) % capacity`
over the characters in order. -/
def hashFold (cap : Nat) (k : Key) : Nat :=
  k.foldl (fun h c => (31 * h + c) % cap) 0

/-- `this.hash(key)`: `hashFold` at the current capacity. -/
def HashMap.hash (m : HashMap α) (k : Key) : Nat :=
  hashFold m.capacity k

/-- The chain traversal of `set` on a single bucket: overwrite the value
of the first node whose key equals `key`, otherwise append a new node at
the tail (an empty bucket receives the node directly). -/
def chainSet (k : Key) (v : α) : Chain α → Chain α
  | [] => [(k, v)]
  | e :: rest => if e.1 = k then (e.1, v) :: rest else e :: chainSet k v rest

/-- The chain traversal of `get`: value of the first node whose key
equals `key`, `none` when the chain is exhausted (`undefined`). -/
def chainFind (k : Key) : Chain α → Option α
  | [] => none
  | e :: rest => if e.1 = k then some e.2 else chainFind k rest

/-- The chain traversal of `has`: whether some node's key equals `key`. -/
def chainHas (k : Key) : Chain α → Bool
  | [] => false
  | e :: rest => if e.1 = k then true else chainHas k rest

/-- The chain traversal of `remove`: splice out the first node whose key
equals `key` (the successor of the match replaces it, whether the match
was the bucket head or an inner node); `none` when no node matches. -/
def chainRemove (k : Key) : Chain α → Option (Chain α)
  | [] => none
  | e :: rest =>
    if e.1 = k then some rest
    else (chainRemove k rest).map (fun c => e :: c)

mutual

/-- `set(key, value)` with fuel.  Faithful to the source order: first the
load-factor check (`size / capacity > loadFactor` triggers
`resize(capacity * 2)`), then the index computation, then the
unconditional `this.size++`, then the defensive bounds check (modelled as
`none`, like fuel exhaustion, since both abort evaluation), then the
bucket update. -/
def setF : Nat → HashMap α → Key → α → Option (HashMap α)
  | 0, _, _, _ => none
  | fuel + 1, m, k, v =>
    match (if (m.size : ℚ) / (m.capacity : ℚ) > m.loadFactor
           then resizeF fuel m (2 * m.capacity)
           else some m) with
    | none => none
    | some m1 =>
      let i := m1.hash k
      let m2 : HashMap α := { m1 with size := m1.size + 1 }
      if i < m2.buckets.length then
        some { m2 with
                buckets := m2.buckets.set i (chainSet k v (m2.buckets.getD i [])) }
      else
        none
  termination_by fuel => (fuel, 0, 0)

/-- `resize(capacity)`: update `capacity`, reset `size` to 0, allocate a
fresh all-null bucket array, then re-insert every entry of the old
buckets (bucket order, chain order) through `set`. -/
def resizeF : Nat → HashMap α → Nat → Option (HashMap α)
  | fuel, m, newCap =>
    reinsertF fuel
      { loadFactor := m.loadFactor
        capacity := newCap
        buckets := List.replicate newCap []
        size := 0 }
      m.buckets.flatten
  termination_by fuel _ _ => (fuel, 2, 0)

/-- The re-insertion loop of `resize`: fold `set` over a list of
entries. -/
def reinsertF : Nat → HashMap α → List (Key × α) → Option (HashMap α)
  | _, acc, [] => some acc
  | fuel, acc, e :: rest =>
    match setF fuel acc e.1 e.2 with
    | none => none
    | some acc2 => reinsertF fuel acc2 rest
  termination_by fuel _ l => (fuel, 1, l.length)

end

/-- `get(key)`: find `key` in the bucket at `hash(key)`; out-of-range
indexing yields `undefined`, i.e. an empty traversal. -/
def HashMap.get (m : HashMap α) (k : Key) : Option α :=
  chainFind k (m.buckets.getD (m.hash k) [])

/-- `has(key)`: same traversal as `get`, returning whether a match was
found. -/
def HashMap.has (m : HashMap α) (k : Key) : Bool :=
  chainHas k (m.buckets.getD (m.hash k) [])

/-- `remove(key)`: splice the first matching node out of the bucket at
`hash(key)` and decrement `size`, returning `true`; when no node matches,
return `false` with the state untouched. -/
def HashMap.remove (m : HashMap α) (k : Key) : HashMap α × Bool :=
  let i := m.hash k
  match chainRemove k (m.buckets.getD i []) with
  | some c => ({ m with buckets := m.buckets.set i c, size := m.size - 1 }, true)
  | none => (m, false)

/-- `length()`: the `size` field. -/
def HashMap.length (m : HashMap α) : Int :=
  m.size

/-- `clear()`: fresh all-null bucket array of `capacity` slots, `size`
reset to 0. -/
def HashMap.clear (m : HashMap α) : HashMap α :=
  { m with buckets := List.replicate m.capacity [], size := 0 }

/-- The number of entries reachable across all chains (what the source
comments call the number of entries in the hash map). -/
def totalEntries (m : HashMap α) : Nat :=
  m.buckets.flatten.length

/-- Run a list of `set` calls in order (each with the given fuel),
propagating abnormal termination. -/
def runSetsF : Nat → HashMap α → List (Key × α) → Option (HashMap α)
  | _, m, [] => some m
  | fuel, m, e :: rest =>
    match setF fuel m e.1 e.2 with
    | none => none
    | some m2 => runSetsF fuel m2 rest

/-- Variant semantics for the resize-transparency claim: `set` with the
load-factor resize step removed, otherwise identical to `setF`. -/
def setNR (m : HashMap α) (k : Key) (v : α) : Option (HashMap α) :=
  let i := m.hash k
  let m2 : HashMap α := { m with size := m.size + 1 }
  if i < m2.buckets.length then
    some { m2 with
            buckets := m2.buckets.set i (chainSet k v (m2.buckets.getD i [])) }
  else
    none

/-- Run a list of resize-free `set` calls in order. -/
def runSetsNR : HashMap α → List (Key × α) → Option (HashMap α)
  | m, [] => some m
  | m, e :: rest =>
    match setNR m e.1 e.2 with
    | none => none
    | some m2 => runSetsNR m2 rest

/-! ## Helper lemmas -/

theorem getD_set_self {β : Type} (l : List β) (i : Nat) (b d : β)
    (h : i < l.length) : (l.set i b).getD i d = b := by
  rw [List.getD_eq_getElem _ _ (by simpa using h)]
  exact List.getElem_set_self _

theorem getD_replicate_default {β : Type} (n i : Nat) (d : β) :
    (List.replicate n d).getD i d = d := by
  rcases Nat.lt_or_ge i n with h | h
  · rw [List.getD_eq_getElem _ _ (by simpa using h)]
    simp
  · exact List.getD_eq_default _ _ (by simpa using h)

theorem foldl_mod_lt (cap : Nat) (hcap : 0 < cap) (k : Key) :
    ∀ acc, acc < cap → k.foldl (fun h c => (31 * h + c) % cap) acc < cap := by
  induction k with
  | nil => intro acc h; simpa using h
  | cons c rest ih =>
    intro acc _
    simpa using ih _ (Nat.mod_lt _ hcap)

theorem hashFold_lt (cap : Nat) (k : Key) (hcap : 0 < cap) :
    hashFold cap k < cap :=
  foldl_mod_lt cap hcap k 0 hcap

theorem chainFind_chainSet_self (k : Key) (v : α) (c : Chain α) :
    chainFind k (chainSet k v c) = some v := by
  induction c with
  | nil => simp [chainSet, chainFind]
  | cons e rest ih =>
    by_cases h : e.1 = k
    · simp [chainSet, chainFind, h]
    · simp [chainSet, chainFind, h, ih]

theorem chainHas_eq_isSome (k : Key) (c : Chain α) :
    chainHas k c = (chainFind k c).isSome := by
  induction c with
  | nil => rfl
  | cons e rest ih =>
    by_cases h : e.1 = k <;> simp [chainHas, chainFind, h, ih]

theorem chainHas_iff_mem (k : Key) (c : Chain α) :
    chainHas k c = true ↔ k ∈ c.map Prod.fst := by
  induction c with
  | nil => simp [chainHas]
  | cons e rest ih =>
    simp only [chainHas, List.map_cons, List.mem_cons]
    by_cases h : e.1 = k
    · simp [h, eq_comm]
    · rw [if_neg h, ih]
      constructor
      · exact fun hm => Or.inr hm
      · rintro (rfl | hm)
        · exact absurd rfl h
        · exact hm

theorem chainHas_false_iff (k : Key) (c : Chain α) :
    chainHas k c = false ↔ k ∉ c.map Prod.fst := by
  rw [← chainHas_iff_mem]
  simp

theorem chainRemove_eq_none_iff (k : Key) (c : Chain α) :
    chainRemove k c = none ↔ chainHas k c = false := by
  induction c with
  | nil => simp [chainRemove, chainHas]
  | cons e rest ih =>
    by_cases h : e.1 = k <;> simp [chainRemove, chainHas, h, ih]

theorem chainRemove_some_has (k : Key) (c c' : Chain α)
    (h : chainRemove k c = some c') : chainHas k c = true := by
  cases hh : chainHas k c with
  | true => rfl
  | false => rw [(chainRemove_eq_none_iff k c).mpr hh] at h; cases h

theorem chainRemove_some_not_has (k : Key) (c c' : Chain α)
    (h : chainRemove k c = some c')
    (hnd : (c.map Prod.fst).Nodup) :
    chainHas k c' = false := by
  induction c generalizing c' with
  | nil => simp [chainRemove] at h
  | cons e rest ih =>
    rw [List.map_cons, List.nodup_cons] at hnd
    by_cases he : e.1 = k
    · rw [show chainRemove k (e :: rest)
            = if e.1 = k then some rest
              else (chainRemove k rest).map (fun c => e :: c) from rfl,
        if_pos he, Option.some.injEq] at h
      subst h
      rw [chainHas_false_iff, ← he]
      exact hnd.1
    · rw [show chainRemove k (e :: rest)
            = if e.1 = k then some rest
              else (chainRemove k rest).map (fun c => e :: c) from rfl,
        if_neg he, Option.map_eq_some'] at h
      obtain ⟨c'', hc, hcc⟩ := h
      subst hcc
      simp [chainHas, he, ih c'' hc hnd.2]

theorem remove_not_has (m : HashMap α) (k : Key)
    (h : chainHas k (m.buckets.getD (m.hash k) []) = false) :
    m.remove k = (m, false) := by
  simp only [HashMap.remove, (chainRemove_eq_none_iff k _).mpr h]

theorem setF_succ (fuel : Nat) (m : HashMap α) (k : Key) (v : α) :
    setF (fuel + 1) m k v
      = (if (m.size : ℚ) / (m.capacity : ℚ) > m.loadFactor
         then resizeF fuel m (2 * m.capacity)
         else some m).bind (fun m1 => setNR m1 k v) := by
  cases hpre : (if (m.size : ℚ) / (m.capacity : ℚ) > m.loadFactor
                then resizeF fuel m (2 * m.capacity)
                else some m) with
  | none => simp only [setF, hpre, Option.bind]
  | some m1 => simp only [setF, hpre, Option.bind, setNR]

theorem setNR_some_get_self (m m' : HashMap α) (k : Key) (v : α)
    (h : setNR m k v = some m') :
    m'.get k = some v ∧ m'.has k = true := by
  simp only [setNR] at h
  split at h
  · rename_i hlt
    rw [Option.some.injEq] at h
    subst h
    have hget :
        HashMap.get
          { m with size := m.size + 1,
                   buckets := m.buckets.set (m.hash k)
                     (chainSet k v (m.buckets.getD (m.hash k) [])) } k
          = some v := by
      unfold HashMap.get
      have hcap : HashMap.hash
          { m with size := m.size + 1,
                   buckets := m.buckets.set (m.hash k)
                     (chainSet k v (m.buckets.getD (m.hash k) [])) } k
          = m.hash k := rfl
      rw [hcap]
      rw [getD_set_self _ _ _ _ (by simpa using hlt)]
      exact chainFind_chainSet_self k v _
    refine ⟨hget, ?_⟩
    unfold HashMap.has
    rw [chainHas_eq_isSome]
    unfold HashMap.get at hget
    rw [hget]
    rfl
  · cases h

theorem setF_some_get_self (fuel : Nat) (m m' : HashMap α) (k : Key) (v : α)
    (h : setF fuel m k v = some m') :
    m'.get k = some v ∧ m'.has k = true := by
  cases fuel with
  | zero => simp [setF] at h
  | succ fuel =>
    rw [setF_succ, Option.bind_eq_some] at h
    obtain ⟨m1, _, h1⟩ := h
    exact setNR_some_get_self m1 m' k v h1

/-! ## Claim theorems -/

/-- Claim C1: the claim says `set` on an already-present key overwrites the
value in place and does not increment `size`.  The code increments
`this.size` unconditionally, before the chain walk that detects the
existing key, so the overwrite branch does increment `size`: starting from
a fresh map, one `set` of key "a" gives `size = 1` with 1 stored entry,
and a second `set` of the same key overwrites the value (get now yields
the new value, still 1 stored entry) yet leaves `size = 2`. -/
theorem set_existing_key_also_increments_size :
    (runSetsF 5 (newHashMap Nat 16 (3 / 4)) [([97], 1)]).map
        (fun m => (m.size, totalEntries m, m.get [97])) = some (1, 1, some 1)
    ∧ (runSetsF 5 (newHashMap Nat 16 (3 / 4)) [([97], 1), ([97], 2)]).map
        (fun m => (m.size, totalEntries m, m.get [97])) = some (2, 1, some 2) := by
  with_unfolding_all decide

/-- Claim C2: the claim says `size` always equals the number of entries
reachable across all chains.  In the state reached from a fresh map by the
two calls `set` of key "a" with value 1 and then value 2, `length`
returns 2 while only 1 entry is reachable, so the invariant is violated
on a reachable state. -/
theorem size_field_diverges_from_entry_count :
    (runSetsF 5 (newHashMap Nat 16 (3 / 4)) [([97], 1), ([97], 2)]).map
        HashMap.length = some 2
    ∧ (runSetsF 5 (newHashMap Nat 16 (3 / 4)) [([97], 1), ([97], 2)]).map
        totalEntries = some 1
    ∧ (2 : Int) ≠ 1 := by
  with_unfolding_all decide

/-- Claim C3: after a sequence of `set` calls, `get` does return the value
of the last `set` for the key, but `length` does not equal the number of
distinct keys set: setting the single key "a" twice yields
`get = some 2` (the last value) while `length` returns 2 although only
1 distinct key was ever set. -/
theorem get_last_value_holds_but_length_overcounts :
    (runSetsF 5 (newHashMap Nat 16 (3 / 4)) [([97], 1), ([97], 2)]).map
        (fun m => (m.get [97], m.length)) = some (some 2, 2)
    ∧ ([[97], [97]] : List Key).dedup.length = 1
    ∧ (2 : Int) ≠ 1 := by
  with_unfolding_all decide

/-- Claim C4: the claim says `get`, `has` and `length` behave identically
whether or not a resize was triggered.  Setting the same key "a" three
times on a capacity-1 map triggers resizes (which recompute `size` from
the actual entries), giving `length = 2`; the identical sequence under
the resize-free variant `setNR` gives `length = 3`.  `get` and `has`
agree between the two runs, so the divergence is exactly in `length`. -/
theorem resize_observable_through_length :
    (runSetsF 10 (newHashMap Nat 1 (3 / 4)) [([97], 1), ([97], 2), ([97], 3)]).map
        (fun m => (m.length, m.get [97], m.has [97])) = some (2, some 3, true)
    ∧ (runSetsNR (newHashMap Nat 1 (3 / 4)) [([97], 1), ([97], 2), ([97], 3)]).map
        (fun m => (m.length, m.get [97], m.has [97])) = some (3, some 3, true)
    ∧ (2 : Int) ≠ 3 := by
  with_unfolding_all decide

/-- The 13 single-character keys of the C5 scenario, character codes 97
to 109, paired with distinct values. -/
def thirteenInserts : List (Key × Nat) :=
  (List.range 13).map (fun j => ([97 + j], j))

/-- The same scenario extended by a 14th distinct single-character key. -/
def fourteenInserts : List (Key × Nat) :=
  (List.range 14).map (fun j => ([97 + j], j))

/-- Claim C5, counterexample: inserting 13 distinct single-character keys
into a fresh map with capacity 16 and load factor 0.75 leaves the
capacity at 16 — the 13th insertion does not trigger a resize to 32,
because the check `size / capacity > loadFactor` runs before the
insertion and sees `12 / 16 = 0.75`, which is not strictly greater than
0.75. -/
theorem thirteenth_insert_does_not_resize :
    (runSetsF 3 (newHashMap Nat 16 (3 / 4)) thirteenInserts).map
        HashMap.capacity = some 16
    ∧ (runSetsF 3 (newHashMap Nat 16 (3 / 4)) thirteenInserts).map
        HashMap.capacity ≠ some 32 := by
  with_unfolding_all decide

/-- Claim C5, amended: inserting 13 distinct single-character keys into a
fresh map with capacity 16 and load factor 0.75 triggers no resize — the
capacity stays 16 and all 13 keys are retrievable; the first resize, to
capacity 32, is triggered by the 14th distinct insertion (which sees
`13 / 16 > 0.75`), after which all 14 keys are still retrievable. -/
theorem fourteenth_insert_first_resizes_to_thirtytwo :
    (runSetsF 3 (newHashMap Nat 16 (3 / 4)) thirteenInserts).map
        (fun m => (m.capacity, m.size)) = some (16, 13)
    ∧ (runSetsF 3 (newHashMap Nat 16 (3 / 4)) thirteenInserts).map
        (fun m => (List.range 13).all (fun j => m.get [97 + j] == some j)) = some true
    ∧ (runSetsF 3 (newHashMap Nat 16 (3 / 4)) fourteenInserts).map
        (fun m => (m.capacity, m.size)) = some (32, 14)
    ∧ (runSetsF 3 (newHashMap Nat 16 (3 / 4)) fourteenInserts).map
        (fun m => (List.range 14).all (fun j => m.get [97 + j] == some j)) = some true := by
  with_unfolding_all decide

/-- Claim C6: the claim says calling `set` twice with the same key and
value leaves the map identical to calling it once.  Because the
overwriting branch of `set` still increments `size`, the two states
differ: same buckets, but `length` 1 after one call and 2 after two. -/
theorem set_twice_differs_from_set_once :
    runSetsF 5 (newHashMap Nat 16 (3 / 4)) [([97], 1)]
      ≠ runSetsF 5 (newHashMap Nat 16 (3 / 4)) [([97], 1), ([97], 1)]
    ∧ (runSetsF 5 (newHashMap Nat 16 (3 / 4)) [([97], 1)]).map
        HashMap.length = some 1
    ∧ (runSetsF 5 (newHashMap Nat 16 (3 / 4)) [([97], 1), ([97], 1)]).map
        HashMap.length = some 2
    ∧ (runSetsF 5 (newHashMap Nat 16 (3 / 4)) [([97], 1)]).map
        HashMap.buckets
      = (runSetsF 5 (newHashMap Nat 16 (3 / 4)) [([97], 1), ([97], 1)]).map
        HashMap.buckets := by
  with_unfolding_all decide

/-- Claim C7: for every key and every map whose capacity is positive
(with the bucket array of that length, as the constructor, `clear` and
`resize` all establish), `hash` equals the left fold of
`(31 * index + characterCode) mod capacity` starting at 0 over the key's
characters, the result lies in `[0, capacity)`, and hence the condition
guarding the defensive out-of-bounds error branch of `set`
(`index < 0 or index >= buckets.length`) is false, i.e. the branch is
unreachable. -/
theorem hash_is_fold_and_in_range {α : Type} (m : HashMap α) (k : Key)
    (hcap : 0 < m.capacity) (hlen : m.buckets.length = m.capacity) :
    m.hash k = k.foldl (fun h c => (31 * h + c) % m.capacity) 0
    ∧ m.hash k < m.capacity
    ∧ ¬ (m.hash k < 0 ∨ m.buckets.length ≤ m.hash k) := by
  refine ⟨rfl, hashFold_lt _ _ hcap, ?_⟩
  rw [hlen]
  rintro (h0 | hge)
  · exact Nat.not_lt_zero _ h0
  · have hlt : m.hash k < m.capacity := hashFold_lt _ _ hcap
    omega

/-- Witness for C7: the hypotheses and the conclusion hold at a fresh
capacity-16 map and the two-character key "hi". -/
theorem hash_is_fold_and_in_range_witness :
    0 < (newHashMap Nat 16 (3 / 4)).capacity
    ∧ (newHashMap Nat 16 (3 / 4)).buckets.length = (newHashMap Nat 16 (3 / 4)).capacity
    ∧ ((newHashMap Nat 16 (3 / 4)).hash [104, 105]
        = [104, 105].foldl (fun h c => (31 * h + c) % (newHashMap Nat 16 (3 / 4)).capacity) 0
      ∧ (newHashMap Nat 16 (3 / 4)).hash [104, 105] < (newHashMap Nat 16 (3 / 4)).capacity
      ∧ ¬ ((newHashMap Nat 16 (3 / 4)).hash [104, 105] < 0
          ∨ (newHashMap Nat 16 (3 / 4)).buckets.length
              ≤ (newHashMap Nat 16 (3 / 4)).hash [104, 105])) :=
  ⟨by decide, by decide, hash_is_fold_and_in_range _ _ (by decide) (by decide)⟩

/-- Claim C8: `remove` returns true exactly when the key is found in its
bucket chain, in which case it splices the matching entry out and
decrements `size`, after which the key is no longer present and a second
`remove` of the same key returns false and leaves `length` unchanged;
when the key is absent `remove` returns false and leaves the whole state
unchanged; `remove` never changes the capacity.  The hypothesis that the
chain holds no duplicate keys is the per-bucket form of the structure's
own uniqueness invariant (established by `set`, which never appends a
key already in the chain). -/
theorem remove_found_and_absent_behavior {α : Type} (m : HashMap α) (k : Key)
    (hnd : ((m.buckets.getD (m.hash k) []).map Prod.fst).Nodup) :
    (m.remove k).2 = m.has k
    ∧ ((m.remove k).2 = false → (m.remove k).1 = m)
    ∧ ((m.remove k).2 = true →
        (m.remove k).1.size = m.size - 1
        ∧ (m.remove k).1.has k = false
        ∧ ((m.remove k).1.remove k).2 = false
        ∧ ((m.remove k).1.remove k).1.length = (m.remove k).1.length)
    ∧ (m.remove k).1.capacity = m.capacity := by
  cases hrem : chainRemove k (m.buckets.getD (m.hash k) []) with
  | none =>
    have hhas : chainHas k (m.buckets.getD (m.hash k) []) = false :=
      (chainRemove_eq_none_iff _ _).mp hrem
    have hr : m.remove k = (m, false) := by
      simp only [HashMap.remove, hrem]
    rw [hr]
    refine ⟨?_, fun _ => rfl, fun hc => absurd hc (by simp), rfl⟩
    unfold HashMap.has
    rw [hhas]
  | some c' =>
    have hhas : chainHas k (m.buckets.getD (m.hash k) []) = true :=
      chainRemove_some_has _ _ _ hrem
    have hne : m.buckets.getD (m.hash k) [] ≠ [] := by
      intro h0
      rw [h0] at hrem
      simp [chainRemove] at hrem
    have hlt : m.hash k < m.buckets.length := by
      by_contra hge
      push_neg at hge
      exact hne (List.getD_eq_default _ _ hge)
    have hc' : chainHas k c' = false := chainRemove_some_not_has _ _ _ hrem hnd
    have hr : m.remove k
        = ({ m with buckets := m.buckets.set (m.hash k) c', size := m.size - 1 }, true) := by
      simp only [HashMap.remove, hrem]
    have hhas1 :
        HashMap.has { m with buckets := m.buckets.set (m.hash k) c',
                             size := m.size - 1 } k = false := by
      show chainHas k ((m.buckets.set (m.hash k) c').getD (m.hash k) []) = false
      rw [getD_set_self _ _ _ _ hlt]
      exact hc'
    have hsecond :
        HashMap.remove { m with buckets := m.buckets.set (m.hash k) c',
                                size := m.size - 1 } k
          = ({ m with buckets := m.buckets.set (m.hash k) c',
                      size := m.size - 1 }, false) :=
      remove_not_has _ k hhas1
    rw [hr]
    refine ⟨hhas.symm, ?_, fun _ => ⟨rfl, hhas1, ?_, ?_⟩, rfl⟩
    · intro hc
      simp at hc
    · exact congrArg Prod.snd hsecond
    · exact congrArg (fun p => p.1.length) hsecond

/-- A concrete one-entry map used to witness the remove theorem: the key
"a" (character code 97) lives in bucket `97 mod 2 = 1`. -/
def removeWitnessMap : HashMap Nat :=
  { loadFactor := 3 / 4, capacity := 2, buckets := [[], [([97], 1)]], size := 1 }

/-- Witness for C8: the no-duplicate hypothesis and the conclusion hold
at the concrete one-entry map and the key "a". -/
theorem remove_found_and_absent_behavior_witness :
    ((removeWitnessMap.buckets.getD (removeWitnessMap.hash [97]) []).map Prod.fst).Nodup
    ∧ ((removeWitnessMap.remove [97]).2 = removeWitnessMap.has [97]
      ∧ ((removeWitnessMap.remove [97]).2 = false
          → (removeWitnessMap.remove [97]).1 = removeWitnessMap)
      ∧ ((removeWitnessMap.remove [97]).2 = true →
          (removeWitnessMap.remove [97]).1.size = removeWitnessMap.size - 1
          ∧ (removeWitnessMap.remove [97]).1.has [97] = false
          ∧ ((removeWitnessMap.remove [97]).1.remove [97]).2 = false
          ∧ ((removeWitnessMap.remove [97]).1.remove [97]).1.length
              = (removeWitnessMap.remove [97]).1.length)
      ∧ (removeWitnessMap.remove [97]).1.capacity = removeWitnessMap.capacity) :=
  ⟨by decide, remove_found_and_absent_behavior removeWitnessMap [97] (by decide)⟩

/-- Claim C9: `clear` replaces the bucket array by `capacity` empty slots
and resets `size` to 0, leaving `capacity` and `loadFactor` unchanged;
afterwards `get` returns the not-found marker and `has` returns false for
every key, and `length` returns 0. -/
theorem clear_resets_state {α : Type} (m : HashMap α) (k : Key) :
    (m.clear).buckets = List.replicate m.capacity []
    ∧ (m.clear).size = 0
    ∧ (m.clear).capacity = m.capacity
    ∧ (m.clear).loadFactor = m.loadFactor
    ∧ (m.clear).get k = none
    ∧ (m.clear).has k = false
    ∧ (m.clear).length = 0 := by
  refine ⟨rfl, rfl, rfl, rfl, ?_, ?_, rfl⟩
  · unfold HashMap.get HashMap.clear
    rw [getD_replicate_default]
    rfl
  · unfold HashMap.has HashMap.clear
    rw [getD_replicate_default]
    rfl

/-- Claim C10: the empty string is an ordinary key: its hash is 0 under
any capacity (the character fold is empty), so whenever a `set` of the
empty-string key completes, the entry sits in bucket 0 and `get` returns
the stored value while `has` returns true. -/
theorem empty_key_handled_like_any_other {α : Type} (m m' : HashMap α) (v : α)
    (fuel : Nat) (h : setF fuel m [] v = some m') :
    hashFold m'.capacity [] = 0
    ∧ m'.hash [] = 0
    ∧ chainFind [] (m'.buckets.getD 0 []) = some v
    ∧ m'.get [] = some v
    ∧ m'.has [] = true := by
  obtain ⟨hget, hhas⟩ := setF_some_get_self fuel m m' [] v h
  refine ⟨rfl, rfl, ?_, hget, hhas⟩
  have hzero : m'.get [] = chainFind [] (m'.buckets.getD 0 []) := rfl
  rw [← hzero]
  exact hget

/-- The state after setting the empty-string key with value 5 on a fresh
capacity-16 map: the entry lands in bucket 0 and `size` becomes 1. -/
def emptyKeySetResult : HashMap Nat :=
  { loadFactor := 3 / 4, capacity := 16,
    buckets := (List.replicate 16 []).set 0 [([], 5)], size := 1 }

/-- Witness for C10: one `set` of the empty-string key on a fresh map
reaches the stated result, on which the conclusion holds. -/
theorem empty_key_handled_like_any_other_witness :
    setF 1 (newHashMap Nat 16 (3 / 4)) [] 5 = some emptyKeySetResult
    ∧ (hashFold emptyKeySetResult.capacity [] = 0
      ∧ emptyKeySetResult.hash [] = 0
      ∧ chainFind [] (emptyKeySetResult.buckets.getD 0 []) = some 5
      ∧ emptyKeySetResult.get [] = some 5
      ∧ emptyKeySetResult.has [] = true) :=
  ⟨by with_unfolding_all decide,
   empty_key_handled_like_any_other (newHashMap Nat 16 (3 / 4)) emptyKeySetResult 5 1
     (by with_unfolding_all decide)⟩

end HashMapJS
